import Mathlib

/-!
Verification of the chunked transcription pipeline of `transcribe-cli`.

The development shallowly embeds the numeric and string-processing core of
`src/transcribe.ts`, `src/optimize.ts` and `src/cli.ts` in Lean 4:

* JavaScript numbers are modelled by `ℚ` (the code only performs field
  arithmetic, `Math.floor` and comparisons on them);
* `Math.floor` is `Int.floor`, and the JavaScript remainder operator `%`
  (truncated remainder, sign of the dividend) is `jsMod`;
* strings are Lean `String`s; decimal printing of integer-valued numbers
  (JavaScript template interpolation) is `jsIntStr`, `padStart(n, '0')` is
  `padLeft n`, and `String.prototype.trim` is `jsTrim`;
* the effectful parts (ffmpeg/ffprobe invocations, file IO, the network
  call to the transcription API) are abstracted as inputs: a chunk is a
  pair of its probed duration and the transcript returned for it, and the
  byte sizes that the code obtains by stat-ing files are plain arguments.
-/

/-- Truncation toward zero, the rounding used by the JavaScript `%`
operator (`a % b = a - b * trunc (a / b)` for finite operands). -/
def jsTrunc (q : ℚ) : Int :=
  if 0 ≤ q then ⌊q⌋ else ⌈q⌉

/-- The JavaScript remainder operator `a % b`: truncated remainder, with
the sign of the dividend. -/
def jsMod (a b : ℚ) : ℚ :=
  a - b * jsTrunc (a / b)

/-- Decimal digits of a natural number, most significant first, with
explicit fuel so that the definition is structurally recursive (the fuel
`n + 1` always suffices since the argument shrinks by a factor 10). -/
def natDigitsAux : Nat → Nat → List Char
  | 0, _ => []
  | fuel + 1, n =>
    if n < 10 then [Nat.digitChar n]
    else natDigitsAux fuel (n / 10) ++ [Nat.digitChar (n % 10)]

/-- Decimal representation of a natural number as a list of digit chars. -/
def natDigits (n : Nat) : List Char :=
  natDigitsAux (n + 1) n

/-- Decimal printing of an integer-valued JavaScript number, as produced
by template-string interpolation (`String(n)`). -/
def jsIntStr (i : Int) : List Char :=
  if i < 0 then '-' :: natDigits i.natAbs else natDigits i.toNat

/-- Model of `String.prototype.padStart(n, '0')` on char lists. -/
def padLeft (n : Nat) (l : List Char) : List Char :=
  List.replicate (n - l.length) '0' ++ l

/-- Whitespace recognised by `String.prototype.trim` (the subset relevant
to this code base). -/
def jsIsWhitespace (c : Char) : Bool :=
  c = ' ' || c = '\t' || c = '\n' || c = '\r'

/-- Model of `String.prototype.trim` on char lists. -/
def jsTrimChars (l : List Char) : List Char :=
  ((l.dropWhile jsIsWhitespace).reverse.dropWhile jsIsWhitespace).reverse

/-- Model of `String.prototype.trim`. -/
def jsTrim (s : String) : String :=
  String.mk (jsTrimChars s.toList)

/-- Char-list body of `formatTime` (src/transcribe.ts lines 14-21):
hours, minutes, seconds and milliseconds computed with `Math.floor` and
the JavaScript `%`, each zero-padded with `padStart`. This version
idealizes the arithmetic as exact rational arithmetic — the intended
semantics of the millisecond extraction. It is faithful to binary64
evaluation wherever no division or multiplication rounds (negative and
integral inputs in particular), but not on inputs such as the double
3.42, where binary64 truncation loses a millisecond; the faithful
machine-arithmetic version is `formatTimeCharsB64` below, and the SRT
serializer is modelled with that one. -/
def formatTimeChars (seconds : ℚ) : List Char :=
  padLeft 2 (jsIntStr ⌊seconds / 3600⌋)
    ++ ':' :: padLeft 2 (jsIntStr ⌊jsMod seconds 3600 / 60⌋)
    ++ ':' :: padLeft 2 (jsIntStr ⌊jsMod seconds 60⌋)
    ++ ',' :: padLeft 3 (jsIntStr ⌊jsMod seconds 1 * 1000⌋)

/-- `formatTime` from src/transcribe.ts lines 14-21, under the
exact-rational idealization of `formatTimeChars`. -/
def formatTime (seconds : ℚ) : String :=
  String.mk (formatTimeChars seconds)

/-- Number of binary digits of a natural number, with explicit fuel so
the definition is structurally recursive (`n + 1` steps always suffice). -/
def bitLenAux : Nat → Nat → Nat
  | 0, _ => 0
  | fuel + 1, n => if n = 0 then 0 else bitLenAux fuel (n / 2) + 1

/-- Number of binary digits of a natural number (0 for 0). -/
def bitLen (n : Nat) : Nat := bitLenAux (n + 1) n

/-- Round a rational to the nearest integer, ties to even. -/
def roundHalfEven (s : ℚ) : Int :=
  if s - ⌊s⌋ < 1 / 2 then ⌊s⌋
  else if 1 / 2 < s - ⌊s⌋ then ⌊s⌋ + 1
  else if ⌊s⌋ % 2 = 0 then ⌊s⌋ else ⌊s⌋ + 1

/-- The binary exponent `e` with `2 ^ e ≤ q < 2 ^ (e + 1)`, for positive
`q` of magnitude at least `2 ^ (-1100)` (which covers every positive
binary64 value, normal or subnormal). -/
def b64Exp (q : ℚ) : Int :=
  (bitLen (⌊q * (2 : ℚ) ^ (1100 : Nat)⌋).toNat : Int) - 1 - 1100

/-- Correct rounding of an exact rational to the nearest IEEE-754
binary64 value (53-bit significand, round to nearest, ties to even), for
magnitudes in the normal range; overflow and subnormal underflow do not
arise for the timestamp arithmetic modelled here. -/
def roundB64 (q : ℚ) : ℚ :=
  if q = 0 then 0
  else if 0 < q then
    ((roundHalfEven (q * (2 : ℚ) ^ (52 - b64Exp q)) : ℤ) : ℚ) * (2 : ℚ) ^ (b64Exp q - 52)
  else
    -(((roundHalfEven (-q * (2 : ℚ) ^ (52 - b64Exp (-q))) : ℤ) : ℚ)
        * (2 : ℚ) ^ (b64Exp (-q) - 52))

/-- Binary64-faithful char-list body of `formatTime` (src/transcribe.ts
lines 14-21): every division and multiplication is rounded to the
nearest double by `roundB64`, while the `%` remainder and `Math.floor`
are exact in binary64 (the remainder of two doubles is itself a double),
so `jsMod` needs no rounding. -/
def formatTimeCharsB64 (seconds : ℚ) : List Char :=
  padLeft 2 (jsIntStr ⌊roundB64 (seconds / 3600)⌋)
    ++ ':' :: padLeft 2 (jsIntStr ⌊roundB64 (jsMod seconds 3600 / 60)⌋)
    ++ ':' :: padLeft 2 (jsIntStr ⌊jsMod seconds 60⌋)
    ++ ',' :: padLeft 3 (jsIntStr ⌊roundB64 (jsMod seconds 1 * 1000)⌋)

/-- Binary64-faithful `formatTime` (src/transcribe.ts lines 14-21). -/
def formatTimeB64 (seconds : ℚ) : String :=
  String.mk (formatTimeCharsB64 seconds)

/-- The exact rational value of the binary64 floating-point literal
`3.42` (the nearest double to 3.42, which is slightly below it). -/
def dbl342 : ℚ := 1925288840700887 / 562949953421312

/-- Upload ceiling constant `MAX_UPLOAD_MB` (src/transcribe.ts line 9). -/
def MAX_UPLOAD_MB : Nat := 24

/-- `MAX_UPLOAD_BYTES` (src/transcribe.ts line 10). -/
def MAX_UPLOAD_BYTES : Nat := MAX_UPLOAD_MB * 1024 * 1024

/-- `AUTO_CHUNK_MINUTES` (src/transcribe.ts line 11). -/
def AUTO_CHUNK_MINUTES : ℚ := 20

/-- `AUTO_CHUNK_THRESHOLD_MINUTES` (src/transcribe.ts line 12). -/
def AUTO_CHUNK_THRESHOLD_MINUTES : ℚ := 45

/-- `SPEED_FACTOR` (src/optimize.ts line 5). -/
def SPEED_FACTOR : ℚ := 1.2

/-- `MAX_FILE_SIZE_BYTES` (src/optimize.ts lines 6-7). -/
def MAX_FILE_SIZE_BYTES : Nat := 24 * 1024 * 1024

/-- `WhisperWord` from src/types.ts. -/
structure WhisperWord where
  word : String
  start : ℚ
  «end» : ℚ
deriving DecidableEq

/-- `WhisperSegment` from src/types.ts. -/
structure WhisperSegment where
  id : Int
  seek : Int
  start : ℚ
  «end» : ℚ
  text : String
  tokens : List Int
  temperature : ℚ
  avg_logprob : ℚ
  compression_ratio : ℚ
  no_speech_prob : ℚ
  words : Option (List WhisperWord)
deriving DecidableEq

/-- `WhisperResponse` from src/types.ts. -/
structure WhisperResponse where
  task : String
  language : String
  duration : ℚ
  text : String
  segments : List WhisperSegment
deriving DecidableEq

/-- `transformSegments` (src/transcribe.ts lines 35-49): applies a time
transform to every segment's start/end and to every nested word's
start/end (`words` is optional, hence the `Option.map`). -/
def transformSegments (segments : List WhisperSegment) (transform : ℚ → ℚ) :
    List WhisperSegment :=
  segments.map fun segment =>
    { segment with
        start := transform segment.start
        «end» := transform segment.«end»
        words := segment.words.map (List.map fun word =>
          { word with
              start := transform word.start
              «end» := transform word.«end» }) }

/-- One SRT cue block: cue number, timestamp pair line, trimmed text and
the blank separator line; the per-iteration contribution of the
`forEach` body in `convertSegmentsToSRT` (src/transcribe.ts lines 26-30). -/
def srtCueBlock (n : Nat) (seg : WhisperSegment) : String :=
  String.mk (natDigits n) ++ "\n"
    ++ formatTimeB64 seg.start ++ " --> " ++ formatTimeB64 seg.«end» ++ "\n"
    ++ jsTrim seg.text ++ "\n\n"

/-- `convertSegmentsToSRT` (src/transcribe.ts lines 23-33): a `forEach`
with index over the segments, accumulating into an initially empty
string; timestamps are rendered with the binary64-faithful formatter. -/
def convertSegmentsToSRT (segments : List WhisperSegment) : String :=
  segments.enum.foldl
    (fun srt p =>
      srt ++ (String.mk (natDigits (p.1 + 1)) ++ "\n")
          ++ (formatTimeB64 p.2.start ++ " --> " ++ formatTimeB64 p.2.«end» ++ "\n")
          ++ (jsTrim p.2.text ++ "\n\n"))
    ""

/-- Sequential cue rendering starting after cue number `n`: the
specification-side description of the SRT document (1-based sequential
cue numbers). -/
def srtRenderFrom (n : Nat) : List WhisperSegment → String
  | [] => ""
  | seg :: rest => srtCueBlock (n + 1) seg ++ srtRenderFrom (n + 1) rest

/-- Per-chunk observation in the chunked loop of `transcribe`
(src/transcribe.ts lines 356-379): the chunk's probed optimized-time
duration (`getMediaDurationSeconds(chunkPath)`) and the transcript the
API returned for it. -/
structure ChunkObs where
  duration : ℚ
  transcription : WhisperResponse
deriving DecidableEq

/-- The mutable state of the chunked loop in `transcribe`
(src/transcribe.ts lines 340-354). -/
structure ChunkState where
  offsetOptimizedSeconds : ℚ
  totalOptimizedSeconds : ℚ
  mergedText : String
  mergedSegments : List WhisperSegment
  language : String
deriving DecidableEq

/-- State before the loop (src/transcribe.ts lines 340-343, 353-354). -/
def initialChunkState : ChunkState :=
  { offsetOptimizedSeconds := 0
    totalOptimizedSeconds := 0
    mergedText := ""
    mergedSegments := []
    language := "unknown" }

/-- One iteration of the chunked loop (src/transcribe.ts lines 356-379):
record language on the first chunk, append `text + '\n'` to the merged
text, transform this chunk's segments by
`t ↦ (t + offsetOptimizedSeconds) * speedFactor + offsetSeconds`, and
advance both optimized-time accumulators by the chunk's duration. -/
def stepChunk (speedFactor offsetSeconds : ℚ) (isFirst : Bool)
    (st : ChunkState) (c : ChunkObs) : ChunkState :=
  { offsetOptimizedSeconds := st.offsetOptimizedSeconds + c.duration
    totalOptimizedSeconds := st.totalOptimizedSeconds + c.duration
    mergedText := st.mergedText ++ c.transcription.text ++ "\n"
    mergedSegments := st.mergedSegments ++ transformSegments c.transcription.segments
      (fun t => (t + st.offsetOptimizedSeconds) * speedFactor + offsetSeconds)
    language := if isFirst then c.transcription.language else st.language }

/-- The chunked loop itself, iterating `stepChunk` in index order. -/
def runChunks (speedFactor offsetSeconds : ℚ) :
    ChunkState → Bool → List ChunkObs → ChunkState
  | st, _, [] => st
  | st, isFirst, c :: rest =>
      runChunks speedFactor offsetSeconds
        (stepChunk speedFactor offsetSeconds isFirst st c) false rest

/-- The chunked path of `transcribe` (src/transcribe.ts lines 353-379),
as a function of the observed chunk list. -/
def processChunks (chunks : List ChunkObs) (speedFactor offsetSeconds : ℚ) :
    ChunkState :=
  runChunks speedFactor offsetSeconds initialChunkState true chunks

/-- Specification-side cumulative offsets: entry `i` is the sum of the
probed optimized durations of chunks `0..i-1`. -/
def chunkOffsets (chunks : List ChunkObs) : List ℚ :=
  (List.range chunks.length).map fun i =>
    ((chunks.take i).map fun c => c.duration).sum

/-- Helper recursion: segments produced from a list of chunks starting at
cumulative optimized offset `o`. -/
def chunkedSegmentsFrom (speedFactor offsetSeconds : ℚ) :
    ℚ → List ChunkObs → List WhisperSegment
  | _, [] => []
  | o, c :: rest =>
    transformSegments c.transcription.segments
        (fun t => (t + o) * speedFactor + offsetSeconds)
      ++ chunkedSegmentsFrom speedFactor offsetSeconds (o + c.duration) rest

/-- The order used by `mergedSegments.sort((a, b) => a.start - b.start)`
(src/transcribe.ts line 397): compare start times only. -/
def segLE (a b : WhisperSegment) : Prop :=
  a.start ≤ b.start

instance : DecidableRel segLE :=
  fun a b => inferInstanceAs (Decidable (a.start ≤ b.start))

instance : IsTotal WhisperSegment segLE :=
  ⟨fun a b => le_total a.start b.start⟩

instance : IsTrans WhisperSegment segLE :=
  ⟨fun _ _ _ h1 h2 => le_trans h1 h2⟩

/-- `mergedSegments.sort((a, b) => a.start - b.start)` (src/transcribe.ts
line 397). ECMAScript requires `Array.prototype.sort` to be stable, and
with this comparator the unique stable result is insertion sort by start
time with ties keeping their original relative order. -/
def jsSortByStart (l : List WhisperSegment) : List WhisperSegment :=
  List.insertionSort segLE l

/-- The non-chunked transform of `transcribe` (src/transcribe.ts line
390): `t ↦ t * speedFactor + offsetSeconds`. -/
def singleTransform (speedFactor offsetSeconds : ℚ)
    (transcription : WhisperResponse) : List WhisperSegment :=
  transformSegments transcription.segments fun t => t * speedFactor + offsetSeconds

/-- `chunkMinutes ?? AUTO_CHUNK_MINUTES` (src/transcribe.ts line 330). -/
def chunkMinutesToUse (chunkMinutes : Option ℚ) : ℚ :=
  chunkMinutes.getD AUTO_CHUNK_MINUTES

/-- The `shouldChunk` decision (src/transcribe.ts lines 331-334):
explicit request, upload-size ceiling, or original-time duration above
the auto-chunk threshold. -/
def shouldChunk (chunkMinutes : Option ℚ) (fileSizeBytes : Nat)
    (durationOptimized speedFactor : ℚ) : Bool :=
  chunkMinutes.isSome
    || decide (fileSizeBytes > MAX_UPLOAD_BYTES)
    || decide (durationOptimized * speedFactor > AUTO_CHUNK_THRESHOLD_MINUTES * 60)

/-- `Math.max(60, chunkMinutesToUse * 60)` (src/transcribe.ts line 346). -/
def chunkSecondsOriginal (chunkMinutes : Option ℚ) : ℚ :=
  max 60 (chunkMinutesToUse chunkMinutes * 60)

/-- `chunkSecondsOriginal / speedFactor` (src/transcribe.ts line 347). -/
def chunkSecondsOptimized (chunkMinutes : Option ℚ) (speedFactor : ℚ) : ℚ :=
  chunkSecondsOriginal chunkMinutes / speedFactor

/-- The post-split validation of `splitAudioIntoChunks`
(src/transcribe.ts lines 200-221). The directory listing is abstracted
as the input: the ordered list of produced chunk files with their byte
sizes. Zero produced files is an error; a chunk above the upload ceiling
(found with `Array.prototype.find`) is a fatal error with guidance;
otherwise the chunk list is returned. -/
def splitAudioIntoChunks (created : List (String × Nat)) :
    Except String (List String) :=
  if created.length = 0 then
    Except.error "Chunking produced no output files. Please try again."
  else
    match created.find? (fun p => decide (p.2 > MAX_UPLOAD_BYTES)) with
    | some tooLarge =>
        Except.error ("Audio chunk is still too large for Whisper API (~24MB).\n\n"
          ++ "Chunk: " ++ tooLarge.1 ++ "\n\n"
          ++ "Try:\n- removing --raw (use default optimization)\n"
          ++ "- or using a smaller chunk size (e.g. --chunk-minutes 10)\n")
    | none => Except.ok (created.map Prod.fst)

/-- Observable outcome of `optimizeAudio` (src/optimize.ts lines 9-92):
the reported speed factor, whether the second (Opus) compression stage
ran, and the bitrate it used if so. -/
structure OptimizeOutcome where
  speedFactor : ℚ
  secondStage : Bool
  opusBitrate : Option Int
deriving DecidableEq

/-- `optimizeAudio` (src/optimize.ts lines 9-92) as a function of the
input file size and the size of the speed-scaled intermediate file (the
ffmpeg invocations themselves are abstracted; this captures the branch
structure, the bitrate computation of lines 56-58, and the returned
speed factor of lines 88 and 91). -/
def optimizeAudio (fileSizeBytes speedOptimizedSizeBytes : Nat) : OptimizeOutcome :=
  if speedOptimizedSizeBytes > MAX_FILE_SIZE_BYTES then
    let fileSizeMB : ℚ := (fileSizeBytes : ℚ) / 1024 / 1024
    let durationSeconds : ℚ := fileSizeMB / (128 / 8)
    let targetBitrate : Int := ⌊(MAX_FILE_SIZE_BYTES : ℚ) / durationSeconds * 8 / 1000⌋ - 5
    let safeBitrate : Int := max 24 (min targetBitrate 64)
    { speedFactor := SPEED_FACTOR, secondStage := true, opusBitrate := some safeBitrate }
  else
    { speedFactor := SPEED_FACTOR, secondStage := false, opusBitrate := none }

/-- Digit-list to number accumulation, as decimal parsing does. -/
def parseDigits (l : List Char) : Nat :=
  l.foldl (fun n c => n * 10 + (c.toNat - '0'.toNat)) 0

/-- The test `/^-?\d+(\.\d+)?$/.test(raw)` of `parseTimeToSeconds`
(src/cli.ts line 25): an optional minus sign, one or more digits, and an
optional fractional part. -/
def secondsRegexMatch (l : List Char) : Bool :=
  let core := match l with
    | '-' :: rest => rest
    | _ => l
  let intPart := core.takeWhile Char.isDigit
  let rest := core.drop intPart.length
  !intPart.isEmpty &&
    (rest.isEmpty ||
      match rest with
      | '.' :: frac => !frac.isEmpty && frac.all Char.isDigit
      | _ => false)

/-- Model of JavaScript `parseFloat` for plain decimal literals: skip
leading whitespace, take an optional sign and the longest
`digits[.digits]` prefix, and return `none` (`NaN`) when no digit was
consumed. Exponent forms never arise in this code path. -/
def jsParseFloat (l : List Char) : Option ℚ :=
  let l1 := l.dropWhile jsIsWhitespace
  let signed : ℚ × List Char := match l1 with
    | '+' :: r => (1, r)
    | '-' :: r => (-1, r)
    | _ => (1, l1)
  let ip := signed.2.takeWhile Char.isDigit
  let r1 := signed.2.drop ip.length
  let fp := match r1 with
    | '.' :: r2 => r2.takeWhile Char.isDigit
    | _ => []
  if ip.isEmpty && fp.isEmpty then none
  else some (signed.1 * ((parseDigits ip : ℚ) + (parseDigits fp : ℚ) / (10 : ℚ) ^ fp.length))

/-- `raw.replace(',', '.')` with string arguments replaces only the first
occurrence. -/
def jsReplaceFirst (a b : Char) : List Char → List Char
  | [] => []
  | c :: rest => if c = a then b :: rest else c :: jsReplaceFirst a b rest

/-- `String.prototype.split(':')` on char lists. -/
def splitOnChar (sep : Char) : List Char → List (List Char)
  | [] => [[]]
  | c :: rest =>
    if c = sep then [] :: splitOnChar sep rest
    else
      match splitOnChar sep rest with
      | [] => [[c]]
      | g :: gs => (c :: g) :: gs

/-- `parseTimeToSeconds` (src/cli.ts lines 18-53): trims the input,
accepts plain (possibly negative, possibly fractional) seconds via the
regex path, otherwise parses `MM:SS(.mmm)` or `HH:MM:SS(.mmm)` after
normalising a decimal comma, rejecting parts that parse to `NaN`. On the
regex path `parseFloat` always succeeds, so the `getD` default is never
used. -/
def parseTimeToSeconds (input : String) : Except String ℚ :=
  let raw := jsTrimChars input.toList
  if raw.isEmpty then Except.error "Invalid time format: empty value"
  else if secondsRegexMatch raw then
    Except.ok ((jsParseFloat raw).getD 0)
  else
    let normalized := jsReplaceFirst ',' '.' raw
    let parts := splitOnChar ':' normalized
    match parts with
    | [mm, ss] =>
      match jsParseFloat mm, jsParseFloat ss with
      | some m, some s => Except.ok (m * 60 + s)
      | _, _ => Except.error ("Invalid time format: " ++ input)
    | [hh, mm, ss] =>
      match jsParseFloat hh, jsParseFloat mm, jsParseFloat ss with
      | some h, some m, some s => Except.ok (h * 3600 + m * 60 + s)
      | _, _, _ => Except.error ("Invalid time format: " ++ input)
    | _ => Except.error ("Invalid time format: " ++ input
        ++ "\nUse seconds (123.45) or HH:MM:SS(.mmm)")

/-- A well-formed SRT timestamp rendering: zero-padded decimal hour,
minute, second and millisecond fields with in-range minute, second and
millisecond values, in the layout `HH:MM:SS,mmm` (hours may exceed two
digits). -/
def renderTS (h m s2 ms : Nat) : List Char :=
  padLeft 2 (natDigits h)
    ++ ':' :: padLeft 2 (natDigits m)
    ++ ':' :: padLeft 2 (natDigits s2)
    ++ ',' :: padLeft 3 (natDigits ms)

/-- A char list is a well-formed SRT timestamp when it is `renderTS` of
some non-negative components with minutes and seconds below 60 and
milliseconds below 1000. -/
def WellFormedSRT (l : List Char) : Prop :=
  ∃ h m s2 ms : Nat, m < 60 ∧ s2 < 60 ∧ ms < 1000 ∧ l = renderTS h m s2 ms

/-- A segment with only timing and text populated, used for concrete
test inputs. -/
def plainSeg (s e : ℚ) (txt : String) : WhisperSegment :=
  { id := 0, seek := 0, start := s, «end» := e, text := txt, tokens := []
    temperature := 0, avg_logprob := 0, compression_ratio := 0
    no_speech_prob := 0, words := none }

/-- A transcript response with the given language, text and segments. -/
def plainResp (lang txt : String) (segs : List WhisperSegment) : WhisperResponse :=
  { task := "transcribe", language := lang, duration := 0, text := txt, segments := segs }

/-- The spec's offset-composition example: chunks of optimized durations
10, 15 and 7 seconds, with a segment at local time 2.0 in chunk index 2. -/
def exampleChunksC1 : List ChunkObs :=
  [{ duration := 10, transcription := plainResp "en" "" [] },
   { duration := 15, transcription := plainResp "en" "" [] },
   { duration := 7, transcription := plainResp "en" "s" [plainSeg 2 3 "s"] }]

/-- The spec's serialization example segment: start 0, end the binary64
value of the literal 3.42, text with surrounding spaces. -/
def exampleSegC4 : WhisperSegment := plainSeg 0 dbl342 " Hello "

/-- Chunk with text "a" for the zero-duration-chunk experiment. -/
def chunkTextA : ChunkObs := { duration := 10, transcription := plainResp "en" "a" [] }

/-- A zero-duration chunk with an empty transcript. -/
def chunkZero : ChunkObs := { duration := 0, transcription := plainResp "en" "" [] }

/-- Chunk with text "b" for the zero-duration-chunk experiment. -/
def chunkTextB : ChunkObs := { duration := 10, transcription := plainResp "en" "b" [] }

/-- A response with one segment starting at local time 0, used to exhibit
a negative transformed timestamp. -/
def exampleRespC9 : WhisperResponse := plainResp "en" "Hi" [plainSeg 0 1 "Hi"]

/-! Helper lemmas. -/

/-- Characters produced by `Nat.digitChar` on digits are decimal digits. -/
theorem digitChar_isDigit : ∀ n : Nat, n < 10 → (Nat.digitChar n).isDigit = true := by
  intro n h
  interval_cases n <;> decide

/-- Every character of `natDigitsAux` is a decimal digit. -/
theorem natDigitsAux_digit :
    ∀ (fuel n : Nat), ∀ c ∈ natDigitsAux fuel n, c.isDigit = true := by
  intro fuel
  induction fuel with
  | zero => intro n c hc; simp [natDigitsAux] at hc
  | succ fuel ih =>
    intro n c hc
    rw [natDigitsAux] at hc
    split at hc
    next h =>
      simp only [List.mem_singleton] at hc
      subst hc
      exact digitChar_isDigit n h
    next h =>
      rcases List.mem_append.mp hc with h1 | h2
      · exact ih _ c h1
      · simp only [List.mem_singleton] at h2
        subst h2
        exact digitChar_isDigit _ (Nat.mod_lt _ (by norm_num))

/-- Every character of `natDigits` is a decimal digit. -/
theorem natDigits_digit : ∀ n : Nat, ∀ c ∈ natDigits n, c.isDigit = true :=
  fun n => natDigitsAux_digit (n + 1) n

/-- The decimal representation of a natural number is never empty. -/
theorem natDigits_ne_nil : ∀ n : Nat, natDigits n ≠ [] := by
  intro n
  unfold natDigits
  rw [natDigitsAux]
  split <;> simp

/-- On non-negative integers, `jsIntStr` prints plain digits. -/
theorem jsIntStr_of_nonneg : ∀ i : Int, 0 ≤ i → jsIntStr i = natDigits i.toNat := by
  intro i h
  unfold jsIntStr
  rw [if_neg (by omega)]

/-- For a non-negative dividend and a positive divisor, the JavaScript
remainder lies in `[0, b)`. -/
theorem jsMod_nonneg_lt :
    ∀ a b : ℚ, 0 ≤ a → 0 < b → 0 ≤ jsMod a b ∧ jsMod a b < b := by
  intro a b ha hb
  have hq : 0 ≤ a / b := div_nonneg ha hb.le
  unfold jsMod jsTrunc
  rw [if_pos hq]
  have h1 : (⌊a / b⌋ : ℚ) ≤ a / b := Int.floor_le _
  have h2 : a / b < (⌊a / b⌋ : ℚ) + 1 := Int.lt_floor_add_one _
  have h3 : b * (a / b) = a := by field_simp
  constructor
  · have h4 : b * (⌊a / b⌋ : ℚ) ≤ b * (a / b) := mul_le_mul_of_nonneg_left h1 hb.le
    linarith
  · have h5 : b * (a / b) < b * ((⌊a / b⌋ : ℚ) + 1) := mul_lt_mul_of_pos_left h2 hb
    nlinarith

/-- For non-negative input every field of the SRT timestamp is in range,
so `formatTimeChars` renders a well-formed timestamp. -/
theorem formatTime_wellformed_of_nonneg :
    ∀ s : ℚ, 0 ≤ s → WellFormedSRT (formatTimeChars s) := by
  intro s hs
  have h3600 := jsMod_nonneg_lt s 3600 hs (by norm_num)
  have h60 := jsMod_nonneg_lt s 60 hs (by norm_num)
  have h1 := jsMod_nonneg_lt s 1 hs (by norm_num)
  have hh : (0 : Int) ≤ ⌊s / 3600⌋ := Int.floor_nonneg.mpr (div_nonneg hs (by norm_num))
  have hmlo : (0 : Int) ≤ ⌊jsMod s 3600 / 60⌋ :=
    Int.floor_nonneg.mpr (div_nonneg h3600.1 (by norm_num))
  have hmhi : ⌊jsMod s 3600 / 60⌋ < 60 := by
    apply Int.floor_lt.mpr
    push_cast
    rw [div_lt_iff₀ (by norm_num : (0:ℚ) < 60)]
    linarith [h3600.2]
  have hslo : (0 : Int) ≤ ⌊jsMod s 60⌋ := Int.floor_nonneg.mpr h60.1
  have hshi : ⌊jsMod s 60⌋ < 60 := by
    apply Int.floor_lt.mpr
    push_cast
    linarith [h60.2]
  have hmslo : (0 : Int) ≤ ⌊jsMod s 1 * 1000⌋ :=
    Int.floor_nonneg.mpr (mul_nonneg h1.1 (by norm_num))
  have hmshi : ⌊jsMod s 1 * 1000⌋ < 1000 := by
    apply Int.floor_lt.mpr
    push_cast
    nlinarith [h1.2]
  refine ⟨⌊s / 3600⌋.toNat, ⌊jsMod s 3600 / 60⌋.toNat, ⌊jsMod s 60⌋.toNat,
    ⌊jsMod s 1 * 1000⌋.toNat, by omega, by omega, by omega, ?_⟩
  unfold formatTimeChars renderTS
  rw [jsIntStr_of_nonneg _ hh, jsIntStr_of_nonneg _ hmlo, jsIntStr_of_nonneg _ hslo,
    jsIntStr_of_nonneg _ hmslo]

/-- Zero-padding a non-empty digit string starts with a digit. -/
theorem padLeft_head_digit :
    ∀ (n : Nat) (l : List Char), l ≠ [] → (∀ c ∈ l, c.isDigit = true) →
      ∃ c, (padLeft n l).head? = some c ∧ c.isDigit = true := by
  intro n l hl hd
  unfold padLeft
  rcases hk : n - l.length with _ | k
  · rcases l with _ | ⟨c, cs⟩
    · exact absurd rfl hl
    · exact ⟨c, by simp, hd c (List.mem_cons_self _ _)⟩
  · exact ⟨'0', by simp [List.replicate], by decide⟩

/-- A well-formed timestamp rendering starts with a digit. -/
theorem renderTS_head_digit :
    ∀ h m s2 ms : Nat, ∃ c, (renderTS h m s2 ms).head? = some c ∧ c.isDigit = true := by
  intro h m s2 ms
  obtain ⟨c, hc1, hc2⟩ :=
    padLeft_head_digit 2 (natDigits h) (natDigits_ne_nil h) (natDigits_digit h)
  refine ⟨c, ?_, hc2⟩
  unfold renderTS
  rcases hpl : padLeft 2 (natDigits h) with _ | ⟨x, xs⟩
  · rw [hpl] at hc1
    simp at hc1
  · rw [hpl] at hc1
    simpa using hc1

/-- The timestamp rendered for `-10` seconds starts with a minus sign. -/
theorem formatTimeChars_neg10_head :
    (formatTimeChars (-10 : ℚ)).head? = some '-' := by
  have hfl : (⌊(-10 : ℚ) / 3600⌋ : Int) = -1 := by norm_num
  unfold formatTimeChars
  rw [hfl]
  decide

/-- The timestamp rendered for `-10` seconds is not well-formed. -/
theorem not_wellformed_neg10 : ¬ WellFormedSRT (formatTimeChars (-10 : ℚ)) := by
  rintro ⟨h, m, s2, ms, _, _, _, heq⟩
  obtain ⟨c, hc1, hc2⟩ := renderTS_head_digit h m s2 ms
  rw [← heq, formatTimeChars_neg10_head] at hc1
  have : c = '-' := by simpa using hc1.symm
  subst this
  simp at hc2

/-- The CLI offset parser accepts a plain negative seconds value. -/
theorem parse_neg10 : parseTimeToSeconds "-10" = Except.ok (-10) := by
  show Except.ok ((jsParseFloat (jsTrimChars "-10".toList)).getD 0) = Except.ok (-10)
  have h0 : jsTrimChars "-10".toList = ['-', '1', '0'] := by decide
  rw [h0]
  have hd : parseDigits ['1', '0'] = 10 := by decide
  have hd2 : parseDigits ([] : List Char) = 0 := rfl
  show Except.ok ((-1 : ℚ) * ((parseDigits ['1', '0'] : ℚ)
      + (parseDigits ([] : List Char) : ℚ) / (10 : ℚ) ^ (([] : List Char)).length))
    = Except.ok (-10)
  rw [hd, hd2]
  norm_num

/-- Filtering by an exact start time commutes with the ordered insertion
used by the stable sort: an inserted element lands before all elements
sharing its start time. -/
theorem filter_orderedInsert (q : ℚ) (a : WhisperSegment) :
    ∀ l : List WhisperSegment,
      (List.orderedInsert segLE a l).filter (fun x => decide (x.start = q))
        = if a.start = q
          then a :: l.filter (fun x => decide (x.start = q))
          else l.filter (fun x => decide (x.start = q)) := by
  intro l
  induction l with
  | nil =>
    simp only [List.orderedInsert, List.filter]
    split_ifs with h <;> simp [h]
  | cons b bs ih =>
    by_cases hab : segLE a b
    · rw [List.orderedInsert_of_le segLE bs hab]
      by_cases haq : a.start = q <;> simp [List.filter_cons, haq]
    · have hrw : List.orderedInsert segLE a (b :: bs) = b :: List.orderedInsert segLE a bs := by
        simp [List.orderedInsert, hab]
      rw [hrw]
      have hba : b.start < a.start := lt_of_not_le hab
      by_cases haq : a.start = q
      · have hbq : ¬ b.start = q := by
          intro h
          exact absurd (h.trans haq.symm) (ne_of_lt hba)
        simp [List.filter_cons, hbq, ih, haq]
      · by_cases hbq : b.start = q <;> simp [List.filter_cons, hbq, ih, haq]

/-- Stability of the start-time sort: the subsequence of segments with
any given start time is unchanged by sorting. -/
theorem filter_jsSort (q : ℚ) :
    ∀ l : List WhisperSegment,
      (jsSortByStart l).filter (fun x => decide (x.start = q))
        = l.filter (fun x => decide (x.start = q)) := by
  intro l
  induction l with
  | nil => rfl
  | cons a l ih =>
    unfold jsSortByStart at ih ⊢
    show (List.orderedInsert segLE a (List.insertionSort segLE l)).filter _ = _
    rw [filter_orderedInsert]
    by_cases haq : a.start = q
    · rw [if_pos haq, ih, List.filter_cons, if_pos (by simp [haq])]
    · rw [if_neg haq, ih, List.filter_cons, if_neg (by simp [haq])]

/-- The loop's merged segment list is the recursion `chunkedSegmentsFrom`
started at the incoming cumulative offset. -/
theorem runChunks_mergedSegments :
    ∀ (chunks : List ChunkObs) (f off : ℚ) (st : ChunkState) (b : Bool),
      (runChunks f off st b chunks).mergedSegments
        = st.mergedSegments ++ chunkedSegmentsFrom f off st.offsetOptimizedSeconds chunks := by
  intro chunks
  induction chunks with
  | nil =>
    intro f off st b
    simp [runChunks, chunkedSegmentsFrom]
  | cons c rest ih =>
    intro f off st b
    show (runChunks f off (stepChunk f off b st c) false rest).mergedSegments = _
    rw [ih]
    simp [stepChunk, chunkedSegmentsFrom, List.append_assoc]

/-- Unfolding the prefix-sum offset list one chunk at a time. -/
theorem chunkOffsets_cons :
    ∀ (c : ChunkObs) (rest : List ChunkObs),
      chunkOffsets (c :: rest) = 0 :: (chunkOffsets rest).map (fun o => c.duration + o) := by
  intro c rest
  unfold chunkOffsets
  rw [List.length_cons, List.range_succ_eq_map]
  simp only [List.map_cons, List.map_map]
  rfl

/-- The offset-threading recursion agrees with the indexed prefix-sum
description of chunk offsets. -/
theorem chunkedSegmentsFrom_eq :
    ∀ (chunks : List ChunkObs) (f off o0 : ℚ),
      chunkedSegmentsFrom f off o0 chunks
        = (List.zipWith
            (fun c o => transformSegments c.transcription.segments
              (fun t => (t + o) * f + off))
            chunks ((chunkOffsets chunks).map (fun o => o0 + o))).flatten := by
  intro chunks
  induction chunks with
  | nil => intro f off o0; simp [chunkedSegmentsFrom, chunkOffsets]
  | cons c rest ih =>
    intro f off o0
    rw [chunkOffsets_cons]
    simp only [List.map_cons, List.zipWith_cons_cons, List.flatten_cons, List.map_map]
    rw [chunkedSegmentsFrom]
    congr 1
    · rw [add_zero]
    · rw [ih f off (o0 + c.duration)]
      simp only [List.map_map, Function.comp_def, add_assoc]

/-- Evaluating the SRT accumulation fold against the sequential renderer,
for any starting index and accumulator. -/
theorem srt_foldl_from :
    ∀ (segs : List WhisperSegment) (n : Nat) (acc : String),
      (List.enumFrom n segs).foldl
        (fun srt p =>
          srt ++ (String.mk (natDigits (p.1 + 1)) ++ "\n")
              ++ (formatTimeB64 p.2.start ++ " --> " ++ formatTimeB64 p.2.«end» ++ "\n")
              ++ (jsTrim p.2.text ++ "\n\n"))
        acc = acc ++ srtRenderFrom n segs := by
  intro segs
  induction segs with
  | nil =>
    intro n acc
    simp [srtRenderFrom, List.enumFrom, String.append_empty]
  | cons s rest ih =>
    intro n acc
    show (List.enumFrom (n + 1) rest).foldl _ (acc ++ _ ++ _ ++ _) = _
    rw [ih]
    rw [srtRenderFrom]
    simp only [srtCueBlock, String.append_assoc]

set_option maxRecDepth 10000 in
/-- Binade of the double quotient 3.42 / 3600. -/
theorem b64Exp_dbl342_div3600 : b64Exp (dbl342 / 3600) = -11 := by
  unfold b64Exp bitLen
  norm_num [dbl342]
  decide

set_option maxRecDepth 10000 in
/-- The double division 3.42 / 3600 rounds to the binary64 value of
0.00095. -/
theorem roundB64_dbl342_div3600 :
    roundB64 (dbl342 / 3600) = 8762203435012037 / 9223372036854775808 := by
  simp only [roundB64, b64Exp_dbl342_div3600]
  norm_num [roundHalfEven, dbl342]

set_option maxRecDepth 10000 in
/-- Binade of the double quotient 3.42 / 60. -/
theorem b64Exp_dbl342_div60 : b64Exp (dbl342 / 60) = -5 := by
  unfold b64Exp bitLen
  norm_num [dbl342]
  decide

set_option maxRecDepth 10000 in
/-- The double division 3.42 / 60 rounds to the binary64 value of
0.057. -/
theorem roundB64_dbl342_div60 :
    roundB64 (dbl342 / 60) = 8214565720323785 / 144115188075855872 := by
  simp only [roundB64, b64Exp_dbl342_div60]
  norm_num [roundHalfEven, dbl342]

set_option maxRecDepth 10000 in
/-- Binade of the double product (3.42 % 1) * 1000. -/
theorem b64Exp_dbl342_millis : b64Exp ((dbl342 - 3) * 1000) = 8 := by
  unfold b64Exp bitLen
  norm_num [dbl342]
  decide

set_option maxRecDepth 10000 in
/-- The double product (3.42 % 1) * 1000 rounds to the binary64 value
419.99999999999994, strictly below 420: the millisecond that the
serializer then truncates away. -/
theorem roundB64_dbl342_millis :
    roundB64 ((dbl342 - 3) * 1000) = 7388718138654719 / 17592186044416 := by
  simp only [roundB64, b64Exp_dbl342_millis]
  norm_num [roundHalfEven, dbl342]

/-- Rounding fixes zero. -/
theorem roundB64_zero : roundB64 (0 : ℚ) = 0 := by
  simp [roundB64]

/-- Under binary64 arithmetic the program renders 3.42 seconds as
`00:00:03,419`: `3.42 % 1` is exactly `0.41999999999999993`, the
multiplication by 1000 rounds to `419.99999999999994`, and `Math.floor`
truncates to 419. -/
theorem formatTimeB64_dbl342 : formatTimeB64 dbl342 = "00:00:03,419" := by
  have hm3600 : jsMod dbl342 3600 = dbl342 := by norm_num [jsMod, jsTrunc, dbl342]
  have hm60 : (⌊jsMod dbl342 60⌋ : ℤ) = 3 := by norm_num [jsMod, jsTrunc, dbl342]
  have hm1 : jsMod dbl342 1 = dbl342 - 3 := by norm_num [jsMod, jsTrunc, dbl342]
  have hh : (⌊roundB64 (dbl342 / 3600)⌋ : ℤ) = 0 := by
    rw [roundB64_dbl342_div3600]
    norm_num
  have hmin : (⌊roundB64 (jsMod dbl342 3600 / 60)⌋ : ℤ) = 0 := by
    rw [hm3600, roundB64_dbl342_div60]
    norm_num
  have hms : (⌊roundB64 (jsMod dbl342 1 * 1000)⌋ : ℤ) = 419 := by
    rw [hm1, roundB64_dbl342_millis]
    norm_num
  rw [formatTimeB64, formatTimeCharsB64, hh, hmin, hm60, hms]
  decide

/-- Under binary64 arithmetic zero seconds renders as `00:00:00,000`. -/
theorem formatTimeB64_zero : formatTimeB64 0 = "00:00:00,000" := by
  have hm : jsMod (0 : ℚ) 3600 = 0 := by norm_num [jsMod, jsTrunc]
  have hm2 : jsMod (0 : ℚ) 60 = 0 := by norm_num [jsMod, jsTrunc]
  have hm3 : jsMod (0 : ℚ) 1 = 0 := by norm_num [jsMod, jsTrunc]
  rw [formatTimeB64, formatTimeCharsB64, hm, hm2, hm3]
  norm_num [roundB64_zero]
  decide

/-! Claim theorems. -/

/-- C1: in the chunked path, for every list of chunk transcripts processed
in index order, the merged segment list is exactly the concatenation, over
chunk index `i`, of that chunk's segments (and nested words) transformed by
`t ↦ (t + O_i) * speedFactor + offsetSeconds`, where `O_i` is the sum of
the probed optimized durations of chunks `0..i-1`; in particular, with
durations `[10, 15, 7]`, speed factor `1.2` and offset `0`, the segment at
local time `2.0` of chunk index `2` maps to `32.4` seconds. -/
theorem chunked_timeline_prefix_sum :
    (∀ (chunks : List ChunkObs) (speedFactor offsetSeconds : ℚ),
      (processChunks chunks speedFactor offsetSeconds).mergedSegments
        = (List.zipWith
            (fun c o => transformSegments c.transcription.segments
              (fun t => (t + o) * speedFactor + offsetSeconds))
            chunks (chunkOffsets chunks)).flatten)
    ∧ ((processChunks exampleChunksC1 1.2 0).mergedSegments.map fun seg => seg.start)
        = [32.4] := by
  constructor
  · intro chunks f off
    rw [processChunks, runChunks_mergedSegments]
    rw [show initialChunkState.mergedSegments = [] from rfl,
        show initialChunkState.offsetOptimizedSeconds = 0 from rfl]
    rw [chunkedSegmentsFrom_eq]
    simp [zero_add]
  · simp [processChunks, runChunks, stepChunk, exampleChunksC1, plainResp, plainSeg,
      initialChunkState, transformSegments]
    norm_num

/-- C2: `transcribe` chunks iff an explicit `chunkMinutes` was passed, or
the file size exceeds `24 * 1024 * 1024` bytes, or the original-time
duration (probed optimized duration times the speed factor) exceeds 45
minutes; with no explicit request the default chunk length is 20 minutes.
The spec's boundary examples (50-minute 10 MB asset chunks, 10-minute
10 MB asset does not, 30 MB asset chunks regardless) are included. -/
theorem chunk_plan_decision :
    ∀ (chunkMinutes : Option ℚ) (fileSizeBytes : Nat) (durationOptimized speedFactor : ℚ),
      (shouldChunk chunkMinutes fileSizeBytes durationOptimized speedFactor = true ↔
        (chunkMinutes.isSome = true ∨ fileSizeBytes > MAX_UPLOAD_BYTES ∨
          durationOptimized * speedFactor > AUTO_CHUNK_THRESHOLD_MINUTES * 60))
      ∧ chunkMinutesToUse none = 20
      ∧ shouldChunk none (10 * 1024 * 1024) 3000 1 = true
      ∧ shouldChunk none (10 * 1024 * 1024) 600 1 = false
      ∧ shouldChunk none (30 * 1024 * 1024) 600 1 = true := by
  intro cm fs d f
  refine ⟨?_, rfl, ?_, ?_, ?_⟩
  · simp [shouldChunk, or_assoc]
  · norm_num [shouldChunk, MAX_UPLOAD_BYTES, MAX_UPLOAD_MB, AUTO_CHUNK_THRESHOLD_MINUTES]
  · norm_num [shouldChunk, MAX_UPLOAD_BYTES, MAX_UPLOAD_MB, AUTO_CHUNK_THRESHOLD_MINUTES]
  · norm_num [shouldChunk, MAX_UPLOAD_BYTES, MAX_UPLOAD_MB, AUTO_CHUNK_THRESHOLD_MINUTES]

/-- C3: for every reconciled transcript the sorted merged segment list is
ascending by start time, is a permutation of the pre-sort list, and keeps
segments with any given start time in their original relative order (the
sort is stable and compares only start times). -/
theorem reconciled_sorted_stable :
    ∀ (chunks : List ChunkObs) (speedFactor offsetSeconds : ℚ),
      List.Sorted segLE
          (jsSortByStart (processChunks chunks speedFactor offsetSeconds).mergedSegments)
      ∧ (jsSortByStart (processChunks chunks speedFactor offsetSeconds).mergedSegments).Perm
          (processChunks chunks speedFactor offsetSeconds).mergedSegments
      ∧ ∀ q : ℚ,
          (jsSortByStart
              (processChunks chunks speedFactor offsetSeconds).mergedSegments).filter
              (fun x => decide (x.start = q))
            = (processChunks chunks speedFactor offsetSeconds).mergedSegments.filter
              (fun x => decide (x.start = q)) := by
  intro chunks f off
  exact ⟨List.sorted_insertionSort segLE _, List.perm_insertionSort segLE _,
    fun q => filter_jsSort q _⟩

/-- C4 (code-bug evidence): the serializer does emit 1-based sequential
cue numbers, a zero-padded millisecond timestamp line and the trimmed
text followed by a blank line, but on the claim's own test vector the
program's binary64 arithmetic renders the segment
`(0, 3.42, " Hello ")` with timestamp line
`00:00:00,000 --> 00:00:03,419` — not the `,420` that the claim (and the
exact millisecond value of 3.42 seconds) requires, because
`Math.floor((3.42 % 1) * 1000)` truncates `419.99999999999994`. -/
theorem srt_serialization_b64 :
    (∀ segs, convertSegmentsToSRT segs = srtRenderFrom 0 segs)
    ∧ convertSegmentsToSRT [exampleSegC4]
        = "1\n00:00:00,000 --> 00:00:03,419\nHello\n\n"
    ∧ "1\n00:00:00,000 --> 00:00:03,419\nHello\n\n"
        ≠ "1\n00:00:00,000 --> 00:00:03,420\nHello\n\n" := by
  refine ⟨?_, ?_, by decide⟩
  · intro segs
    unfold convertSegmentsToSRT
    rw [show segs.enum = List.enumFrom 0 segs from rfl, srt_foldl_from]
    exact String.empty_append _
  · simp only [convertSegmentsToSRT, exampleSegC4, plainSeg, List.enum, List.enumFrom,
      List.foldl_cons, List.foldl_nil, formatTimeB64_zero, formatTimeB64_dbl342]
    decide

/-- C5 counterexample: the code does not skip a zero-duration,
zero-segment chunk for text concatenation — placed between two chunks it
changes the merged output text (the trimmed `mergedText`), contradicting
the claim that it cannot alter it. -/
theorem zero_chunk_text_altered_cex :
    jsTrim (processChunks [chunkTextA, chunkZero, chunkTextB] 1 0).mergedText ≠
      jsTrim (processChunks [chunkTextA, chunkTextB] 1 0).mergedText := by
  decide

/-- C5 (amended): a chunk with probed duration 0 and zero transcript
segments advances the cumulative optimized offset by exactly 0 and
contributes no segments, but it is not skipped for text concatenation:
its empty text still appends a newline separator to the merged text. -/
theorem zero_chunk_step_effect :
    ∀ (speedFactor offsetSeconds : ℚ) (isFirst : Bool) (st : ChunkState) (c : ChunkObs),
      c.duration = 0 → c.transcription.segments = [] → c.transcription.text = "" →
      (stepChunk speedFactor offsetSeconds isFirst st c).offsetOptimizedSeconds
          = st.offsetOptimizedSeconds
      ∧ (stepChunk speedFactor offsetSeconds isFirst st c).totalOptimizedSeconds
          = st.totalOptimizedSeconds
      ∧ (stepChunk speedFactor offsetSeconds isFirst st c).mergedSegments
          = st.mergedSegments
      ∧ (stepChunk speedFactor offsetSeconds isFirst st c).mergedText
          = st.mergedText ++ "\n" := by
  intro f off b st c h1 h2 h3
  unfold stepChunk transformSegments
  simp [h1, h2, h3]

/-- C5 witness: the amended statement at the concrete zero chunk. -/
theorem zero_chunk_step_effect_witness :
    (stepChunk 1 0 false initialChunkState chunkZero).offsetOptimizedSeconds
        = initialChunkState.offsetOptimizedSeconds
    ∧ (stepChunk 1 0 false initialChunkState chunkZero).totalOptimizedSeconds
        = initialChunkState.totalOptimizedSeconds
    ∧ (stepChunk 1 0 false initialChunkState chunkZero).mergedSegments
        = initialChunkState.mergedSegments
    ∧ (stepChunk 1 0 false initialChunkState chunkZero).mergedText
        = initialChunkState.mergedText ++ "\n" :=
  zero_chunk_step_effect 1 0 false initialChunkState chunkZero rfl rfl rfl

/-- C6: when chunking, the original-time chunk length is clamped to a
floor of 60 seconds via `Math.max`, and the optimized-time length handed
to the splitter is that length divided by the speed factor (so multiplying
back by the speed factor recovers it). -/
theorem chunk_length_floor_div :
    ∀ (chunkMinutes : Option ℚ) (speedFactor : ℚ), 0 < speedFactor →
      60 ≤ chunkSecondsOriginal chunkMinutes ∧
      chunkSecondsOriginal chunkMinutes = max 60 (chunkMinutesToUse chunkMinutes * 60) ∧
      chunkSecondsOptimized chunkMinutes speedFactor * speedFactor
        = chunkSecondsOriginal chunkMinutes := by
  intro cm f hf
  refine ⟨le_max_left _ _, rfl, ?_⟩
  unfold chunkSecondsOptimized
  exact div_mul_cancel₀ _ (ne_of_gt hf)

/-- C6 witness: a half-minute request is clamped to 60 seconds and the
division by the 1.2 speed factor is exact. -/
theorem chunk_length_floor_div_witness :
    60 ≤ chunkSecondsOriginal (some (1/2)) ∧
    chunkSecondsOriginal (some (1/2)) = max 60 (chunkMinutesToUse (some (1/2)) * 60) ∧
    chunkSecondsOptimized (some (1/2)) 1.2 * 1.2 = chunkSecondsOriginal (some (1/2)) :=
  chunk_length_floor_div (some (1/2)) 1.2 (by norm_num)

/-- C7: with speed factor 1 and offset 0 on the non-chunked path, the
applied transform `t ↦ t * 1 + 0` is the identity, so every output
segment (and every nested word) equals the corresponding input exactly. -/
theorem roundtrip_identity_transform :
    ∀ resp : WhisperResponse, singleTransform 1 0 resp = resp.segments := by
  intro resp
  unfold singleTransform transformSegments
  simp only [mul_one, add_zero]
  have h1 : List.map (fun w : WhisperWord => { w with start := w.start, «end» := w.«end» }) = id := by
    funext l
    exact List.map_id' l
  simp [h1]

/-- C8: the post-split validation errors when zero chunk files were
produced, errors when any produced chunk exceeds the 24 MiB upload
ceiling, and returns exactly the produced chunk paths otherwise. -/
theorem split_chunks_validation :
    ∀ created : List (String × Nat),
      ((∃ l, splitAudioIntoChunks created = Except.ok l) ↔
        created ≠ [] ∧ ∀ c ∈ created, c.2 ≤ MAX_UPLOAD_BYTES)
      ∧ (∀ l, splitAudioIntoChunks created = Except.ok l → l = created.map Prod.fst)
      ∧ splitAudioIntoChunks [] =
          Except.error "Chunking produced no output files. Please try again." := by
  intro created
  refine ⟨⟨?_, ?_⟩, ?_, rfl⟩
  · rintro ⟨l, hl⟩
    unfold splitAudioIntoChunks at hl
    split at hl
    · exact absurd hl (by simp)
    next hlen =>
      refine ⟨fun h => by simp [h] at hlen, ?_⟩
      intro c hc
      rcases hfind : created.find? (fun p => decide (p.2 > MAX_UPLOAD_BYTES)) with _ | tl
      · have := List.find?_eq_none.mp hfind c hc
        simpa using this
      · rw [hfind] at hl
        exact absurd hl (by simp)
  · rintro ⟨hne, hall⟩
    unfold splitAudioIntoChunks
    rw [if_neg (by simpa using hne)]
    have hfind : created.find? (fun p => decide (p.2 > MAX_UPLOAD_BYTES)) = none := by
      apply List.find?_eq_none.mpr
      intro x hx
      simpa using hall x hx
    rw [hfind]
    exact ⟨_, rfl⟩
  · intro l hl
    unfold splitAudioIntoChunks at hl
    split at hl
    · exact absurd hl (by simp)
    · rcases hfind : created.find? (fun p => decide (p.2 > MAX_UPLOAD_BYTES)) with _ | tl
      · rw [hfind] at hl
        simpa using hl.symm
      · rw [hfind] at hl
        exact absurd hl (by simp)

/-- C9: `formatTime` renders a well-formed `HH:MM:SS,mmm` timestamp for
every non-negative input; no clamping exists, the CLI offset parser
accepts negative values, and the transform applied with a negative offset
yields a segment whose negative start time renders to a malformed
timestamp (it begins with a minus sign, not a digit). -/
theorem formatTime_negative_reachable :
    (∀ s : ℚ, 0 ≤ s → WellFormedSRT (formatTimeChars s))
    ∧ parseTimeToSeconds "-10" = Except.ok (-10)
    ∧ ∃ seg ∈ singleTransform 1.2 (-10) exampleRespC9,
        seg.start < 0 ∧ ¬ WellFormedSRT (formatTimeChars seg.start) := by
  refine ⟨formatTime_wellformed_of_nonneg, parse_neg10, ?_⟩
  have hval : singleTransform 1.2 (-10) exampleRespC9
      = [{ plainSeg 0 1 "Hi" with start := 0 * 1.2 + (-10), «end» := 1 * 1.2 + (-10) }] := rfl
  refine ⟨{ plainSeg 0 1 "Hi" with start := 0 * 1.2 + (-10), «end» := 1 * 1.2 + (-10) },
    hval ▸ List.mem_singleton_self _, ?_, ?_⟩
  · show (0 : ℚ) * 1.2 + (-10) < 0
    norm_num
  · show ¬ WellFormedSRT (formatTimeChars ((0 : ℚ) * 1.2 + (-10)))
    rw [show (0 : ℚ) * 1.2 + (-10) = -10 by norm_num]
    exact not_wellformed_neg10

/-- C9 witness: the well-formedness half applied at the concrete
non-negative input 5. -/
theorem formatTime_negative_reachable_witness :
    WellFormedSRT (formatTimeChars 5) :=
  formatTime_negative_reachable.1 5 (by norm_num)

/-- C10: `optimizeAudio` reports speed factor exactly 1.2 on both paths;
the second (Opus) stage runs exactly when the speed-scaled file exceeds
24 MiB, and its bitrate is clamped into `[24, 64]` kbps. -/
theorem optimize_speed_factor_const :
    ∀ fileSizeBytes speedOptimizedSizeBytes : Nat, 0 < fileSizeBytes →
      (optimizeAudio fileSizeBytes speedOptimizedSizeBytes).speedFactor = 1.2
      ∧ ((optimizeAudio fileSizeBytes speedOptimizedSizeBytes).opusBitrate.isSome
          ↔ speedOptimizedSizeBytes > MAX_FILE_SIZE_BYTES)
      ∧ ∀ br, (optimizeAudio fileSizeBytes speedOptimizedSizeBytes).opusBitrate = some br →
          24 ≤ br ∧ br ≤ 64 := by
  intro fs ss _
  unfold optimizeAudio
  split
  next h =>
    refine ⟨rfl, by simpa using h, ?_⟩
    intro br hbr
    simp only [Option.some.injEq] at hbr
    subst hbr
    exact ⟨le_max_left _ _, max_le (by norm_num) (min_le_right _ _)⟩
  next h =>
    refine ⟨rfl, by simpa using h, ?_⟩
    intro br hbr
    simp at hbr

/-- C10 witness: a 100 MB input whose speed-scaled file is 30 MiB takes
the second stage and still reports speed factor 1.2 with an in-range
bitrate. -/
theorem optimize_speed_factor_const_witness :
    (optimizeAudio 104857600 31457280).speedFactor = 1.2
    ∧ ((optimizeAudio 104857600 31457280).opusBitrate.isSome
        ↔ 31457280 > MAX_FILE_SIZE_BYTES)
    ∧ ∀ br, (optimizeAudio 104857600 31457280).opusBitrate = some br →
        24 ≤ br ∧ br ≤ 64 :=
  optimize_speed_factor_const 104857600 31457280 (by decide)
